import Mathlib

/-!
Verification of the MeshedLogo geometry core.

The definitions below are a shallow embedding of `lib/mesh_generator.py` and
`lib/contour_extractor.py`.  Coordinates are modelled as rational numbers;
NumPy arrays become Lean lists.  External collaborators (SciPy's `Delaunay`,
matplotlib's `Path.contains_point`, OpenCV's contour tracing, and the
process-wide random generator) are modelled as explicit parameters: the
Delaunay simplices, the point-membership predicates, and the random draw
streams are inputs to the embedded functions, exactly as the Python code
consumes them.
-/

namespace MeshedLogo

/-- A 2-D point with rational coordinates. -/
abbrev Q2 := ℚ × ℚ

/-- A triangle as a triple of vertex indices. -/
abbrev Tri := Nat × Nat × Nat

/-- A polygon: an ordered list of points, implicitly closed. -/
abbrev Poly := List Q2

/-- Index into a point list, as NumPy fancy indexing does in the source
(indices produced by the triangulator are always in range; out-of-range
access defaults to the origin in the model). -/
def getPoint (pts : List Q2) (i : Nat) : Q2 := pts.getD i (0, 0)

/-- Triangle area from `MeshGenerator.refine_mesh` /
`MeshData.get_triangle_areas`: `0.5 * abs((p2x-p1x)*(p3y-p1y) - (p3x-p1x)*(p2y-p1y))`. -/
def triArea (p1 p2 p3 : Q2) : ℚ :=
  (1 / 2) * |(p2.1 - p1.1) * (p3.2 - p1.2) - (p3.1 - p1.1) * (p2.2 - p1.2)|

/-- Area of the triangle stored at indices `t` of a point list. -/
def triAreaAt (pts : List Q2) (t : Tri) : ℚ :=
  triArea (getPoint pts t.1) (getPoint pts t.2.1) (getPoint pts t.2.2)

/-- Centroid of three points: `np.mean(triangle_points, axis=0)`. -/
def centroid3 (p1 p2 p3 : Q2) : Q2 :=
  ((p1.1 + p2.1 + p3.1) / 3, (p1.2 + p2.2 + p3.2) / 3)

/-- Centroid of the triangle stored at indices `t` of a point list. -/
def triCentroid (pts : List Q2) (t : Tri) : Q2 :=
  centroid3 (getPoint pts t.1) (getPoint pts t.2.1) (getPoint pts t.2.2)

/-- The `MeshData` dataclass of `mesh_generator.py`: vertex coordinates,
triangle index triples, and the two stored counts. -/
structure MeshData where
  points : List Q2
  triangles : List Tri
  num_vertices : Nat
  num_triangles : Nat
deriving Repr, DecidableEq

/-- `MeshGenerator._delaunay_triangulation`.  The SciPy `Delaunay(points)`
call is external, so its output `tri.simplices` is the explicit parameter
`simplices`; matplotlib's `Path(hole).contains_point` is the explicit
predicate `containsPoint`.  Mirrors the source: when `holes` is empty no
filtering happens; otherwise triangles whose centroid lies in some hole are
dropped, and if that would drop every triangle the full simplex list is
kept (`triangles = np.array(valid_triangles) if valid_triangles else tri.simplices`). -/
def delaunayTriangulation (points : List Q2) (holes : List Poly)
    (containsPoint : Poly → Q2 → Bool) (simplices : List Tri) : MeshData :=
  let triangles :=
    if holes.isEmpty then simplices
    else
      let valid := simplices.filter (fun t =>
        ! holes.any (fun h => containsPoint h (triCentroid points t)))
      if valid.isEmpty then simplices else valid
  { points := points, triangles := triangles,
    num_vertices := points.length, num_triangles := triangles.length }

/-- The rejection-sampling loop body of `MeshGenerator._add_interior_points`:
scan the candidate stream, keep candidates passing the membership test,
stop once `n` have been accepted.  `n` is the number of points still
wanted; the loop in the source tests `len(interior_points) < num_points`
before each iteration and increments `attempts` every iteration. -/
def collectAccepted (accept : Q2 → Bool) : Nat → List Q2 → List Q2
  | _, [] => []
  | 0, _ :: _ => []
  | n + 1, c :: cs =>
    if accept c then c :: collectAccepted accept n cs
    else collectAccepted accept (n + 1) cs

/-- `MeshGenerator._add_interior_points`.  The uniform draws from the
bounding box are external randomness, modelled by the candidate stream
`candidates` (the source draws one candidate per attempt, for at most
`max_attempts = num_points * 20` attempts).  The membership test — either
the pixel-accurate `character_image` test or the
`boundary_path.contains_point` / hole test — is the predicate `accept`.
Mirrors the source: non-positive `num_points` and zero accepted points
both return the boundary unchanged; otherwise the boundary is followed by
the accepted interior points. -/
def addInteriorPoints (boundaryPoints : List Q2) (numPoints : Int)
    (accept : Q2 → Bool) (candidates : List Q2) : List Q2 :=
  if numPoints ≤ 0 then boundaryPoints
  else
    let interior :=
      collectAccepted accept numPoints.toNat (candidates.take (numPoints.toNat * 20))
    if interior.isEmpty then boundaryPoints else boundaryPoints ++ interior

/-- `MeshGenerator._get_bounding_box`: columnwise min and max,
`(x_min, y_min, x_max, y_max)`.  The source would fail on an empty array;
the model returns the origin box there (never reached by the claims). -/
def getBoundingBox (pts : List Q2) : ℚ × ℚ × ℚ × ℚ :=
  match pts with
  | [] => (0, 0, 0, 0)
  | p :: rest =>
    (rest.foldl (fun m q => min m q.1) p.1,
     rest.foldl (fun m q => min m q.2) p.2,
     rest.foldl (fun m q => max m q.1) p.1,
     rest.foldl (fun m q => max m q.2) p.2)

/-- `np.linspace a b n`: `n` evenly spaced samples from `a` to `b` inclusive. -/
def linspace (a b : ℚ) (n : Nat) : List ℚ :=
  if n = 0 then []
  else if n = 1 then [a]
  else (List.range n).map (fun (i : Nat) => a + (i : ℚ) * (b - a) / ((n : ℚ) - 1))

/-- The grid side used by `_generate_interior_points_poisson`:
`grid_size = int(np.sqrt(num_points * 3))`. -/
def poissonGridSize (numPoints : Nat) : Nat := Nat.sqrt (numPoints * 3)

/-- Grid side the specification describes for jittered-grid sampling: a
"√target_count × √target_count grid".  Stated for comparison with the
source's `poissonGridSize`. -/
def poissonGridSizeSpec (numPoints : Nat) : Nat := Nat.sqrt numPoints

/-- Jitter applied to one grid point:
`jitter = (extent / grid_size) * 0.3 * (random.random() - 0.5)` in each
axis, where `r` is the pair of uniform draws for this grid point. -/
def jitterAt (cellW cellH : ℚ) (r : ℚ × ℚ) (p : Q2) : Q2 :=
  (p.1 + cellW * (3 / 10) * (r.1 - 1 / 2), p.2 + cellH * (3 / 10) * (r.2 - 1 / 2))

/-- The jittered grid candidates of `_generate_interior_points_poisson`, in
scan order: `for x in x_steps: for y in y_steps:` (x outer, y inner).  The
random pair consumed at the k-th visited grid point is `rand k`. -/
def poissonCands (xSteps ySteps : List ℚ) (cellW cellH : ℚ)
    (rand : Nat → ℚ × ℚ) : List Q2 :=
  ((xSteps.flatMap (fun x => ySteps.map (fun y => (x, y)))).enum).map
    (fun kp => jitterAt cellW cellH (rand kp.1) kp.2)

/-- Candidate list of `_generate_interior_points_poisson` for a given test
boundary, target count and random stream. -/
def poissonCandsOf (testBoundary : List Q2) (numPoints : Nat)
    (rand : Nat → ℚ × ℚ) : List Q2 :=
  let bb := getBoundingBox testBoundary
  let gs := poissonGridSize numPoints
  poissonCands (linspace bb.1 bb.2.2.1 gs) (linspace bb.2.1 bb.2.2.2 gs)
    ((bb.2.2.1 - bb.1) / (gs : ℚ)) ((bb.2.2.2 - bb.2.1) / (gs : ℚ)) rand

/-- The accept-and-early-exit scan of `_generate_interior_points_poisson`:
append each accepted candidate and break (out of both loops) as soon as
`numPoints` have been collected. -/
def poissonLoop (accept : Q2 → Bool) (numPoints : Nat) :
    List Q2 → List Q2 → List Q2
  | [], acc => acc
  | c :: cs, acc =>
    if accept c then
      let acc2 := acc ++ [c]
      if numPoints ≤ acc2.length then acc2
      else poissonLoop accept numPoints cs acc2
    else poissonLoop accept numPoints cs acc

/-- `MeshGenerator._generate_interior_points_poisson`.  The
`boundary_path.contains_point` / hole membership test is the predicate
`accept`; the random stream is `rand`.  Mirrors the source: build the
jittered grid candidates, scan them with early exit, return the boundary
alone when nothing was accepted, else the boundary followed by at most
`num_points` accepted points (`interior_points[:num_points]`). -/
def generateInteriorPointsPoisson (boundaryPoints : List Q2) (numPoints : Nat)
    (accept : Q2 → Bool) (testBoundary : List Q2) (rand : Nat → ℚ × ℚ) : List Q2 :=
  let interior := poissonLoop accept numPoints (poissonCandsOf testBoundary numPoints rand) []
  if interior.isEmpty then boundaryPoints
  else boundaryPoints ++ interior.take numPoints

/-- Linear interpolation used by `_refine_boundary`:
`interp_point = (1 - t) * p1 + t * p2`. -/
def interpPoint (p1 p2 : Q2) (t : ℚ) : Q2 :=
  ((1 - t) * p1.1 + t * p2.1, (1 - t) * p1.2 + t * p2.2)

/-- `MeshGenerator._refine_boundary`: start from the first point, then for
every edge `(points[i], points[(i+1) % len])` append `factor - 1`
intermediate points followed by the edge's endpoint.  The source indexes
`points[0]` unconditionally and so would fail on an empty array; the model
returns the empty list there (never reached: `generate` requires at least
3 points). -/
def refineBoundary (points : List Q2) (factor : Nat) : List Q2 :=
  match points with
  | [] => []
  | p0 :: _ =>
    p0 :: (List.range points.length).flatMap (fun i =>
      let p1 := getPoint points i
      let p2 := getPoint points ((i + 1) % points.length)
      ((List.range' 1 (factor - 1)).map
        (fun (j : Nat) => interpPoint p1 p2 ((j : ℚ) / (factor : ℚ)))) ++ [p2])

/-- The error message raised by `MeshGenerator.generate` when fewer than 3
points are supplied. -/
def needThreePointsMsg : String := "Need at least 3 points to create a mesh"

/-- `MeshGenerator.generate`.  The `raise ValueError(...)` becomes the
`Except.error` branch.  External collaborators are explicit parameters:
`accept` and `candidates` feed `_add_interior_points`, `containsPoint` is
matplotlib's point-in-path test and `delaunay` is SciPy's
`Delaunay(...).simplices`.  Mirrors the source's order: the <3 check on
the raw input, then optional interior points, then optional boundary
refinement, then triangulation with hole filtering. -/
def generate (points : List Q2) (addInterior : Bool) (numInteriorPoints : Int)
    (boundaryRefinement : Bool) (refinementFactor : Nat)
    (holes : List Poly) (containsPoint : Poly → Q2 → Bool)
    (accept : Q2 → Bool) (candidates : List Q2)
    (delaunay : List Q2 → List Tri) : Except String MeshData :=
  if points.length < 3 then Except.error needThreePointsMsg
  else
    let pts1 :=
      if addInterior then addInteriorPoints points numInteriorPoints accept candidates
      else points
    let pts2 :=
      if boundaryRefinement then refineBoundary pts1 refinementFactor
      else pts1
    Except.ok (delaunayTriangulation pts2 holes containsPoint (delaunay pts2))

/-- The per-triangle loop of `MeshGenerator.refine_mesh`, threading the
growing `points_list` and `triangles_list`.  `getP` looks a vertex up in
the original mesh's point array (`mesh.points[tri_indices]` in the
source). -/
def refineFold (getP : Nat → Q2) (maxArea : ℚ) :
    List Tri → List Q2 → List Tri → List Q2 × List Tri
  | [], pts, tris => (pts, tris)
  | t :: rest, pts, tris =>
    let p1 := getP t.1
    let p2 := getP t.2.1
    let p3 := getP t.2.2
    if maxArea < triArea p1 p2 p3 then
      let c := centroid3 p1 p2 p3
      let newIdx := pts.length
      refineFold getP maxArea rest (pts ++ [c])
        (tris ++ [(t.1, t.2.1, newIdx), (t.2.1, t.2.2, newIdx), (t.2.2, t.1, newIdx)])
    else
      refineFold getP maxArea rest pts (tris ++ [t])

/-- `MeshGenerator.refine_mesh`: subdivide every triangle whose area
exceeds `max_area` into three triangles fanned to its centroid, appending
the centroid to the point list; keep the rest unchanged. -/
def refineMesh (mesh : MeshData) (maxArea : ℚ) : MeshData :=
  let res := refineFold (getPoint mesh.points) maxArea mesh.triangles mesh.points []
  { points := res.1, triangles := res.2,
    num_vertices := res.1.length, num_triangles := res.2.length }

/-- The oversized triangles of a mesh: those `refine_mesh` subdivides. -/
def oversizedTriangles (mesh : MeshData) (maxArea : ℚ) : List Tri :=
  mesh.triangles.filter (fun t => decide (maxArea < triAreaAt mesh.points t))

/-- The `ContourData` dataclass of `contour_extractor.py` (the `hierarchy`
field is carried by the source but never consulted by the operations the
claims are about, so it is omitted). -/
structure ContourData where
  points : List Q2
  image_shape : Nat × Nat
  num_points : Nat
  is_closed : Bool
deriving Repr, DecidableEq

/-- Python's `max(xs, key=...)` starting from first element `x`: later
elements replace the current best only when strictly greater, so ties keep
the earliest element. -/
def pyMax (key : ContourData → Nat) (x : ContourData) (xs : List ContourData) : ContourData :=
  xs.foldl (fun best c => if key c > key best then c else best) x

/-- `ContourExtractor.extract_largest`.  The OpenCV contour tracing inside
`extract` is external, so the extracted contour list is the explicit
parameter `contours`.  Mirrors the source: `None` for an empty list, else
`max(contours, key=lambda c: c.num_points)`. -/
def extractLargest (contours : List ContourData) : Option ContourData :=
  match contours with
  | [] => none
  | c :: cs => some (pyMax (fun d => d.num_points) c cs)

/-- Squared euclidean distance between two points. -/
def distSq (p q : Q2) : ℚ := (p.1 - q.1) ^ 2 + (p.2 - q.2) ^ 2

/-- Twice the signed area of the triangle `a b p`; its square over
`distSq a b` is the squared perpendicular distance from `p` to the chord
through `a` and `b`. -/
def cross2 (a b p : Q2) : ℚ :=
  (b.1 - a.1) * (p.2 - a.2) - (b.2 - a.2) * (p.1 - a.1)

/-- Comparison measure for the distance from `p` to the chord `a`-`b`,
kept in ℚ by avoiding square roots: for a degenerate chord (`a = b`) the
squared distance to `a`, otherwise the squared cross product (the squared
perpendicular distance scaled by `distSq a b`). -/
def chordMeasure (a b p : Q2) : ℚ :=
  if distSq a b = 0 then distSq p a else (cross2 a b p) ^ 2

/-- The threshold `chordMeasure` is compared against so that
`chordMeasure a b p > chordThreshold a b eps2` holds exactly when the
perpendicular distance from `p` to the chord exceeds `√eps2`. -/
def chordThreshold (a b : Q2) (eps2 : ℚ) : ℚ :=
  if distSq a b = 0 then eps2 else eps2 * distSq a b

/-- Scan for the point farthest from the chord `a`-`b`: fold over the
segment keeping the first index attaining the maximal measure. -/
def farthestFrom (a b : Q2) : List Q2 → Nat → Nat × ℚ → Nat × ℚ
  | [], _, best => best
  | p :: ps, i, best =>
    farthestFrom a b ps (i + 1)
      (if chordMeasure a b p > best.2 then (i, chordMeasure a b p) else best)

/-- Index and measure of the point of the segment farthest from the chord
`a`-`b` (first maximum; measures are nonnegative so the `-1` seed is
always replaced on a nonempty segment). -/
def farthestAux (a b : Q2) (mid : List Q2) : Nat × ℚ :=
  farthestFrom a b mid 0 (0, -1)

/-- Modelled from the spec: the Douglas-Peucker recursion of §4.2, which
the source delegates to the external `cv2.approxPolyDP`.  "Recursively
finds the point of maximum perpendicular distance from the chord between
two anchor points; if that distance exceeds epsilon, keep the point and
recurse on both sub-segments, else discard all points between the
anchors."  `eps2` is the squared tolerance; distances are compared via
`chordMeasure`/`chordThreshold` to stay in ℚ.  The guard on the farthest
index is defensive (it always holds for a nonempty segment). -/
def dpSeg (eps2 : ℚ) (a : Q2) (mid : List Q2) (b : Q2) : List Q2 :=
  if mid = [] then [a, b]
  else
    if hk : (farthestAux a b mid).1 < mid.length then
      if (farthestAux a b mid).2 > chordThreshold a b eps2 then
        dpSeg eps2 a (mid.take (farthestAux a b mid).1)
            (mid.getD (farthestAux a b mid).1 (0, 0)) ++
          (dpSeg eps2 (mid.getD (farthestAux a b mid).1 (0, 0))
            (mid.drop ((farthestAux a b mid).1 + 1)) b).drop 1
      else [a, b]
    else [a, b]
termination_by mid.length
decreasing_by
  · simp only [List.length_take]
    omega
  · simp only [List.length_drop]
    omega

/-- Modelled from the spec: Douglas-Peucker over a whole polygon, the
first and last points serving as the shared anchors (§4.2: "For closed
polygons, the algorithm must treat closure correctly (the first/last
point is a shared anchor)"). -/
def dpSimplify (eps2 : ℚ) (ps : List Q2) : List Q2 :=
  match ps with
  | [] => []
  | [p] => [p]
  | a :: b :: rest =>
    dpSeg eps2 a ((b :: rest).dropLast) ((b :: rest).getLast (List.cons_ne_nil b rest))

/-- `ContourData.simplify`.  The <3 early return is the source's own
(`if len(self.points) < 3: return self`); the simplification body is the
Douglas-Peucker model above standing in for the external
`cv2.approxPolyDP(contour, epsilon, self.is_closed)`, with the returned
`ContourData` rebuilt exactly as in the source (`num_points` is the
length of the simplified point list). -/
def ContourData.simplify (c : ContourData) (epsilon : ℚ) : ContourData :=
  if c.points.length < 3 then c
  else
    let simplifiedPoints := dpSimplify (epsilon * epsilon) c.points
    { points := simplifiedPoints, image_shape := c.image_shape,
      num_points := simplifiedPoints.length, is_closed := c.is_closed }

theorem collectAccepted_eq_filter_take (accept : Q2 → Bool) :
    ∀ (cs : List Q2) (n : Nat),
      collectAccepted accept n cs = (cs.filter accept).take n := by
  intro cs
  induction cs with
  | nil => intro n; cases n <;> simp [collectAccepted]
  | cons c cs ih =>
    intro n
    cases n with
    | zero => simp [collectAccepted]
    | succ m =>
      by_cases h : accept c
      · simp [collectAccepted, h, List.filter_cons, ih]
      · simp [collectAccepted, h, List.filter_cons, ih]

/-- C3: `_add_interior_points` scans at most `num_points * 20` candidates
drawn from the bounding box, accepts those passing the membership test
until `num_points` are accepted, and returns the boundary points in
original order followed by the accepted interior points in acceptance
order; in particular when nothing is accepted (including budget
exhaustion with zero acceptances, and non-positive targets) it returns
the boundary alone and never fails. -/
theorem addInteriorPoints_spec (boundaryPoints : List Q2) (numPoints : Int)
    (accept : Q2 → Bool) (candidates : List Q2) :
    addInteriorPoints boundaryPoints numPoints accept candidates =
      boundaryPoints ++
        ((candidates.take (numPoints.toNat * 20)).filter accept).take numPoints.toNat := by
  unfold addInteriorPoints
  by_cases h : numPoints ≤ 0
  · have h0 : numPoints.toNat = 0 := Int.toNat_of_nonpos h
    simp [h, h0]
  · simp only [h, if_false]
    rw [collectAccepted_eq_filter_take]
    by_cases he :
        ((candidates.take (numPoints.toNat * 20)).filter accept).take numPoints.toNat = []
    · simp [he]
    · simp [he]

/-- C2: `MeshGenerator.generate` raises the insufficient-points error for
every input of fewer than 3 points, and for 3 or more points it succeeds
(it never raises for that reason). -/
theorem generate_insufficientPoints (points : List Q2) (addInterior : Bool)
    (numInteriorPoints : Int) (boundaryRefinement : Bool) (refinementFactor : Nat)
    (holes : List Poly) (containsPoint : Poly → Q2 → Bool) (accept : Q2 → Bool)
    (candidates : List Q2) (delaunay : List Q2 → List Tri) :
    (points.length < 3 →
      generate points addInterior numInteriorPoints boundaryRefinement refinementFactor
        holes containsPoint accept candidates delaunay = Except.error needThreePointsMsg) ∧
    (3 ≤ points.length →
      ∃ m, generate points addInterior numInteriorPoints boundaryRefinement refinementFactor
        holes containsPoint accept candidates delaunay = Except.ok m) := by
  constructor
  · intro h
    simp [generate, h]
  · intro h
    have hlt : ¬ points.length < 3 := by omega
    unfold generate
    simp only [hlt, if_false]
    exact ⟨_, rfl⟩

/-- C2 witness: a concrete 2-point input is rejected with the
insufficient-points error. -/
theorem generate_insufficientPoints_witness :
    ([((0 : ℚ), (0 : ℚ)), ((1 : ℚ), (0 : ℚ))] : List Q2).length < 3 ∧
    generate [((0 : ℚ), (0 : ℚ)), ((1 : ℚ), (0 : ℚ))] false 0 false 2 []
        (fun _ _ => false) (fun _ => false) [] (fun _ => []) =
      Except.error needThreePointsMsg :=
  ⟨by decide,
   (generate_insufficientPoints [((0 : ℚ), (0 : ℚ)), ((1 : ℚ), (0 : ℚ))] false 0 false 2 []
      (fun _ _ => false) (fun _ => false) [] (fun _ => [])).1 (by decide)⟩

/-- C10: `_delaunay_triangulation` returns the input point array unchanged
(same points, same order), sets `num_vertices` to its length, and its
triangle list is a subset of the unfiltered Delaunay simplices — hole
filtering only ever removes triangles. -/
theorem delaunayTriangulation_frame (points : List Q2) (holes : List Poly)
    (containsPoint : Poly → Q2 → Bool) (simplices : List Tri) :
    (delaunayTriangulation points holes containsPoint simplices).points = points ∧
    (delaunayTriangulation points holes containsPoint simplices).num_vertices = points.length ∧
    ∀ t ∈ (delaunayTriangulation points holes containsPoint simplices).triangles,
      t ∈ simplices := by
  refine ⟨rfl, rfl, ?_⟩
  intro t ht
  by_cases hh : holes.isEmpty
  · simpa [delaunayTriangulation, hh] using ht
  · simp only [delaunayTriangulation, hh, if_false] at ht
    by_cases hv :
        (simplices.filter
          (fun t => ! holes.any (fun h => containsPoint h (triCentroid points t)))).isEmpty
    · rw [if_pos hv] at ht
      exact ht
    · rw [if_neg hv] at ht
      exact List.mem_of_mem_filter ht

/-- C10 witness: a concrete instance of the frame property, with the
triangle of the filtered mesh traced back to the simplex list. -/
theorem delaunayTriangulation_frame_witness :
    ((0, 1, 2) : Tri) ∈
      (delaunayTriangulation [((0 : ℚ), (0 : ℚ)), ((1 : ℚ), (0 : ℚ)), ((0 : ℚ), (1 : ℚ))]
        [] (fun _ _ => false) [((0, 1, 2) : Tri)]).triangles ∧
    ((0, 1, 2) : Tri) ∈ [((0, 1, 2) : Tri)] :=
  ⟨by decide,
   (delaunayTriangulation_frame [((0 : ℚ), (0 : ℚ)), ((1 : ℚ), (0 : ℚ)), ((0 : ℚ), (1 : ℚ))]
      [] (fun _ _ => false) [((0, 1, 2) : Tri)]).2.2 (0, 1, 2) (by decide)⟩

/-- C1: `_delaunay_triangulation` discards exactly the Delaunay triangles
whose centroid lies inside some gap polygon; when every triangle would be
discarded it keeps the full unfiltered simplex list, so with a nonempty
Delaunay triangulation (guaranteed by SciPy for at least 3 non-collinear
points) the returned mesh always has at least one triangle. -/
theorem delaunayTriangulation_gapFilter (points : List Q2) (holes : List Poly)
    (containsPoint : Poly → Q2 → Bool) (simplices : List Tri)
    (hne : simplices ≠ []) :
    (simplices.filter
        (fun t => ! holes.any (fun h => containsPoint h (triCentroid points t))) ≠ [] →
      (delaunayTriangulation points holes containsPoint simplices).triangles =
        simplices.filter
          (fun t => ! holes.any (fun h => containsPoint h (triCentroid points t)))) ∧
    (simplices.filter
        (fun t => ! holes.any (fun h => containsPoint h (triCentroid points t))) = [] →
      (delaunayTriangulation points holes containsPoint simplices).triangles = simplices) ∧
    (delaunayTriangulation points holes containsPoint simplices).triangles ≠ [] := by
  by_cases hh : holes.isEmpty
  · have hh2 : holes = [] := by simpa using hh
    subst hh2
    refine ⟨fun _ => ?_, fun hcon => ?_, ?_⟩
    · simp [delaunayTriangulation]
    · simp at hcon
      exact absurd hcon hne
    · simpa [delaunayTriangulation] using hne
  · by_cases hv :
        simplices.filter
          (fun t => ! holes.any (fun h => containsPoint h (triCentroid points t))) = []
    · refine ⟨fun hcon => absurd hv hcon, fun _ => ?_, ?_⟩
      · simp [delaunayTriangulation, hh, hv]
      · simpa [delaunayTriangulation, hh, hv] using hne
    · refine ⟨fun _ => ?_, fun hcon => absurd hcon hv, ?_⟩
      · simp [delaunayTriangulation, hh, hv]
      · simp [delaunayTriangulation, hh, hv]

/-- C1 witness: with one triangle whose centroid lies in the (degenerate,
all-containing) gap, the fallback keeps the full simplex list nonempty. -/
theorem delaunayTriangulation_gapFilter_witness :
    ([((0, 1, 2) : Tri)] : List Tri) ≠ [] ∧
    (delaunayTriangulation [((0 : ℚ), (0 : ℚ)), ((1 : ℚ), (0 : ℚ)), ((0 : ℚ), (1 : ℚ))]
        [[((0 : ℚ), (0 : ℚ)), ((2 : ℚ), (0 : ℚ)), ((0 : ℚ), (2 : ℚ))]]
        (fun _ _ => true) [((0, 1, 2) : Tri)]).triangles ≠ [] :=
  ⟨by decide,
   (delaunayTriangulation_gapFilter [((0 : ℚ), (0 : ℚ)), ((1 : ℚ), (0 : ℚ)), ((0 : ℚ), (1 : ℚ))]
      [[((0 : ℚ), (0 : ℚ)), ((2 : ℚ), (0 : ℚ)), ((0 : ℚ), (2 : ℚ))]]
      (fun _ _ => true) [((0, 1, 2) : Tri)] (by decide)).2.2⟩

theorem pyMax_spec (key : ContourData → Nat) :
    ∀ (xs : List ContourData) (x : ContourData),
      pyMax key x xs ∈ x :: xs ∧ ∀ y ∈ x :: xs, key y ≤ key (pyMax key x xs) := by
  intro xs
  induction xs with
  | nil =>
    intro x
    simp [pyMax]
  | cons c cs ih =>
    intro x
    have hstep : pyMax key x (c :: cs) = pyMax key (if key c > key x then c else x) cs := rfl
    obtain ⟨hmem, hle⟩ := ih (if key c > key x then c else x)
    rw [hstep]
    by_cases hcx : key c > key x
    · rw [if_pos hcx] at hmem hle ⊢
      refine ⟨?_, ?_⟩
      · rcases List.mem_cons.mp hmem with h | h
        · exact List.mem_cons.mpr (Or.inr (List.mem_cons.mpr (Or.inl h)))
        · exact List.mem_cons.mpr (Or.inr (List.mem_cons.mpr (Or.inr h)))
      · intro y hy
        rcases List.mem_cons.mp hy with h | h
        · subst h
          exact le_trans (le_of_lt hcx) (hle c (List.mem_cons.mpr (Or.inl rfl)))
        · exact hle y h
    · rw [if_neg hcx] at hmem hle ⊢
      refine ⟨?_, ?_⟩
      · rcases List.mem_cons.mp hmem with h | h
        · exact List.mem_cons.mpr (Or.inl h)
        · exact List.mem_cons.mpr (Or.inr (List.mem_cons.mpr (Or.inr h)))
      · intro y hy
        rcases List.mem_cons.mp hy with h | h
        · subst h
          exact hle y (List.mem_cons.mpr (Or.inl rfl))
        · rcases List.mem_cons.mp h with h2 | h2
          · subst h2
            exact le_trans (Nat.le_of_not_lt hcx) (hle x (List.mem_cons.mpr (Or.inl rfl)))
          · exact hle y (List.mem_cons.mpr (Or.inr h2))

/-- C5: `extract_largest` returns `none` for an empty contour list (no
foreground contour found) without failing, and otherwise returns a
contour of the list whose vertex count (`num_points`, not area) is
maximal among all extracted contours. -/
theorem extractLargest_spec (contours : List ContourData) :
    (contours = [] → extractLargest contours = none) ∧
    (contours ≠ [] → ∃ c, extractLargest contours = some c ∧ c ∈ contours ∧
      ∀ d ∈ contours, d.num_points ≤ c.num_points) := by
  constructor
  · intro h
    subst h
    rfl
  · intro h
    cases contours with
    | nil => exact absurd rfl h
    | cons c cs =>
      obtain ⟨hmem, hle⟩ := pyMax_spec (fun d => d.num_points) cs c
      exact ⟨pyMax (fun d => d.num_points) c cs, rfl, hmem, hle⟩

/-- A 3-vertex contour used as concrete test data. -/
def contourSmall : ContourData :=
  ⟨[(0, 0), (1, 0), (0, 1)], (8, 8), 3, true⟩

/-- A 5-vertex contour used as concrete test data. -/
def contourBig : ContourData :=
  ⟨[(0, 0), (3, 0), (3, 3), (0, 3), (0, 2)], (8, 8), 5, true⟩

/-- C5 witness: on a concrete two-contour list the vertex-count maximum is
returned. -/
theorem extractLargest_witness :
    ∃ c, extractLargest [contourSmall, contourBig] = some c ∧
      c ∈ [contourSmall, contourBig] ∧
      ∀ d ∈ [contourSmall, contourBig], d.num_points ≤ c.num_points :=
  (extractLargest_spec [contourSmall, contourBig]).2 (by simp)

theorem refineFold_spec (g : Nat → Q2) (A : ℚ) :
    ∀ (ts : List Tri) (pts : List Q2) (tris : List Tri),
      (refineFold g A ts pts tris).1 =
        pts ++ (ts.filter (fun t => decide (A < triArea (g t.1) (g t.2.1) (g t.2.2)))).map
          (fun t => centroid3 (g t.1) (g t.2.1) (g t.2.2)) ∧
      (refineFold g A ts pts tris).2.length =
        tris.length + ts.length +
          2 * (ts.filter (fun t => decide (A < triArea (g t.1) (g t.2.1) (g t.2.2)))).length := by
  intro ts
  induction ts with
  | nil =>
    intro pts tris
    simp [refineFold]
  | cons t rest ih =>
    intro pts tris
    by_cases h : A < triArea (g t.1) (g t.2.1) (g t.2.2)
    · obtain ⟨h1, h2⟩ := ih (pts ++ [centroid3 (g t.1) (g t.2.1) (g t.2.2)])
        (tris ++ [(t.1, t.2.1, pts.length), (t.2.1, t.2.2, pts.length), (t.2.2, t.1, pts.length)])
      constructor
      · simp [refineFold, h, h1, List.filter_cons]
      · simp [refineFold, h, h2, List.filter_cons]
        omega
    · obtain ⟨h1, h2⟩ := ih pts (tris ++ [t])
      constructor
      · simp [refineFold, h, h1, List.filter_cons]
      · simp [refineFold, h, h2, List.filter_cons]
        omega

/-- C7: `refine_mesh` appends one centroid per oversized triangle to the
point list (in processing order), keeps every triangle at or below the
threshold, and replaces each oversized one by three fan triangles; hence
the output vertex count is the input vertex count plus the number of
oversized triangles and the output triangle count is the input triangle
count plus twice that number. -/
theorem refineMesh_counts (mesh : MeshData) (maxArea : ℚ)
    (hv : mesh.num_vertices = mesh.points.length)
    (ht : mesh.num_triangles = mesh.triangles.length) :
    (refineMesh mesh maxArea).num_vertices =
      mesh.num_vertices + (oversizedTriangles mesh maxArea).length ∧
    (refineMesh mesh maxArea).num_triangles =
      mesh.num_triangles + 2 * (oversizedTriangles mesh maxArea).length ∧
    (refineMesh mesh maxArea).points =
      mesh.points ++ (oversizedTriangles mesh maxArea).map (triCentroid mesh.points) := by
  obtain ⟨h1, h2⟩ := refineFold_spec (getPoint mesh.points) maxArea mesh.triangles mesh.points []
  refine ⟨?_, ?_, ?_⟩
  · simp only [refineMesh, oversizedTriangles, triAreaAt, hv]
    rw [h1]
    simp [triCentroid]
  · simp only [refineMesh, oversizedTriangles, triAreaAt, ht]
    rw [h2]
    simp
  · simp only [refineMesh, oversizedTriangles, triAreaAt]
    rw [h1]
    simp [triCentroid]

/-- A concrete mesh with a single triangle of area 8. -/
def meshBigTri : MeshData :=
  ⟨[(0, 0), (4, 0), (0, 4)], [(0, 1, 2)], 3, 1⟩

/-- C7 witness: refining the concrete one-triangle mesh at threshold 1
adds one centroid vertex and two triangles. -/
theorem refineMesh_counts_witness :
    (refineMesh meshBigTri 1).num_vertices =
      meshBigTri.num_vertices + (oversizedTriangles meshBigTri 1).length ∧
    (refineMesh meshBigTri 1).num_triangles =
      meshBigTri.num_triangles + 2 * (oversizedTriangles meshBigTri 1).length ∧
    (refineMesh meshBigTri 1).points =
      meshBigTri.points ++ (oversizedTriangles meshBigTri 1).map (triCentroid meshBigTri.points) :=
  refineMesh_counts meshBigTri 1 rfl rfl

theorem refineFold_keep (g : Nat → Q2) (A : ℚ) :
    ∀ (ts : List Tri) (pts : List Q2) (tris : List Tri),
      (∀ t ∈ ts, triArea (g t.1) (g t.2.1) (g t.2.2) ≤ A) →
      refineFold g A ts pts tris = (pts, tris ++ ts) := by
  intro ts
  induction ts with
  | nil =>
    intro pts tris _
    simp [refineFold]
  | cons t rest ih =>
    intro pts tris h
    have hA : ¬ A < triArea (g t.1) (g t.2.1) (g t.2.2) :=
      not_lt.mpr (h t (List.mem_cons.mpr (Or.inl rfl)))
    simp only [refineFold, if_neg hA]
    rw [ih pts (tris ++ [t]) (by intro u hu; exact h u (List.mem_cons.mpr (Or.inr hu)))]
    simp

/-- C6: on a mesh in which no triangle's area exceeds the threshold,
`refine_mesh` is a no-op — same vertex count, same triangle count — and
applying it twice changes nothing; the pass never re-checks triangles
created within the same call (the loop runs over the input triangle list
only). -/
theorem refineMesh_noop (mesh : MeshData) (A : ℚ)
    (hv : mesh.num_vertices = mesh.points.length)
    (ht : mesh.num_triangles = mesh.triangles.length)
    (h : ∀ t ∈ mesh.triangles, triAreaAt mesh.points t ≤ A) :
    (refineMesh mesh A).num_vertices = mesh.num_vertices ∧
    (refineMesh mesh A).num_triangles = mesh.num_triangles ∧
    refineMesh (refineMesh mesh A) A = refineMesh mesh A := by
  have hk := refineFold_keep (getPoint mesh.points) A mesh.triangles mesh.points []
    (by intro t htm; exact h t htm)
  have hm : refineMesh mesh A =
      ⟨mesh.points, mesh.triangles, mesh.points.length, mesh.triangles.length⟩ := by
    simp [refineMesh, hk]
  refine ⟨?_, ?_, ?_⟩
  · rw [hm, hv]
  · rw [hm, ht]
  · rw [hm]
    simp [refineMesh, hk]

/-- A concrete mesh with a single triangle of area 1/2. -/
def meshSmallTri : MeshData :=
  ⟨[(0, 0), (1, 0), (0, 1)], [(0, 1, 2)], 3, 1⟩

/-- C6 witness: refining the concrete small mesh at threshold 1 is a
no-op, and doubly so. -/
theorem refineMesh_noop_witness :
    (refineMesh meshSmallTri 1).num_vertices = meshSmallTri.num_vertices ∧
    (refineMesh meshSmallTri 1).num_triangles = meshSmallTri.num_triangles ∧
    refineMesh (refineMesh meshSmallTri 1) 1 = refineMesh meshSmallTri 1 :=
  refineMesh_noop meshSmallTri 1 rfl rfl (by
    intro t htm
    simp only [meshSmallTri] at htm
    rw [List.mem_singleton] at htm
    subst htm
    norm_num [triAreaAt, triArea, getPoint, meshSmallTri])

theorem linspace_length (a b : ℚ) (n : Nat) : (linspace a b n).length = n := by
  unfold linspace
  by_cases h0 : n = 0
  · simp [h0]
  · by_cases h1 : n = 1
    · simp [h0, h1]
    · rw [if_neg h0, if_neg h1, List.length_map, List.length_range]

theorem gridScan_length (xs ys : List ℚ) :
    (xs.flatMap (fun x => ys.map (fun y => ((x, y) : Q2)))).length =
      xs.length * ys.length := by
  induction xs with
  | nil => simp
  | cons x xs ih =>
    simp [List.flatMap_cons, ih]
    ring

theorem poissonCandsOf_length (testBoundary : List Q2) (numPoints : Nat)
    (rand : Nat → ℚ × ℚ) :
    (poissonCandsOf testBoundary numPoints rand).length =
      poissonGridSize numPoints * poissonGridSize numPoints := by
  unfold poissonCandsOf poissonCands
  rw [List.length_map, List.enum_length, gridScan_length, linspace_length, linspace_length]

theorem sqrtTwelve : Nat.sqrt 12 = 3 := by
  have h1 : 3 ≤ Nat.sqrt 12 := Nat.le_sqrt.mpr (by norm_num)
  have h2 : Nat.sqrt 12 < 4 := Nat.sqrt_lt.mpr (by norm_num)
  omega

theorem sqrtFour : Nat.sqrt 4 = 2 := by
  have h1 : 2 ≤ Nat.sqrt 4 := Nat.le_sqrt.mpr (by norm_num)
  have h2 : Nat.sqrt 4 < 3 := Nat.sqrt_lt.mpr (by norm_num)
  omega

theorem poissonGridSize_four : poissonGridSize 4 = 3 := by
  unfold poissonGridSize
  rw [show (4 * 3 : Nat) = 12 from rfl, sqrtTwelve]

theorem poissonLoop_eq_filter_take (accept : Q2 → Bool) (n : Nat) :
    ∀ (cands : List Q2) (acc : List Q2), acc.length < n →
      poissonLoop accept n cands acc = acc ++ (cands.filter accept).take (n - acc.length) := by
  intro cands
  induction cands with
  | nil =>
    intro acc h
    simp [poissonLoop]
  | cons c cs ih =>
    intro acc h
    by_cases hc : accept c
    · simp only [poissonLoop, hc, if_true]
      by_cases hn : n ≤ (acc ++ [c]).length
      · rw [if_pos hn]
        have hlen : n - acc.length = 1 := by
          simp only [List.length_append, List.length_singleton] at hn
          omega
        simp [List.filter_cons, hc, hlen]
      · rw [if_neg hn]
        rw [ih (acc ++ [c]) (by simp only [List.length_append, List.length_singleton] at hn ⊢; omega)]
        have hstep : n - acc.length = (n - (acc ++ [c]).length) + 1 := by
          simp only [List.length_append, List.length_singleton] at hn ⊢
          omega
        simp [List.filter_cons, hc, hstep]
    · simp only [poissonLoop, hc, if_false]
      rw [ih acc h]
      simp [List.filter_cons, hc]

/-- C4 counterexample: the claim says jittered-grid sampling lays a
`√target_count × √target_count` grid, but the source computes
`grid_size = int(np.sqrt(num_points * 3))`: for a target of 4 points the
laid grid has side 3 (9 candidate sites), not side 2. -/
theorem poissonGridSize_counterexample :
    poissonGridSize 4 = 3 ∧ poissonGridSizeSpec 4 = 2 ∧
    poissonGridSize 4 ≠ poissonGridSizeSpec 4 ∧
    (poissonCandsOf [((0 : ℚ), (0 : ℚ)), ((1 : ℚ), (1 : ℚ))] 4
      (fun _ => ((1 : ℚ) / 2, (1 : ℚ) / 2))).length = 9 := by
  have h2 : poissonGridSizeSpec 4 = 2 := by
    unfold poissonGridSizeSpec
    exact sqrtFour
  refine ⟨poissonGridSize_four, h2, ?_, ?_⟩
  · rw [poissonGridSize_four, h2]
    decide
  · rw [poissonCandsOf_length, poissonGridSize_four]

/-- C4 (amended): `_generate_interior_points_poisson` lays a
`⌊√(3·target_count)⌋ × ⌊√(3·target_count)⌋` jittered grid over the test
boundary's bounding box, scans it column-major (x outer, y inner), tests
membership of each perturbed grid point, stops as soon as `target_count`
points are accepted, and returns the boundary followed by the accepted
points in scan order — the boundary alone when nothing is accepted. -/
theorem generateInteriorPointsPoisson_spec (boundaryPoints : List Q2) (numPoints : Nat)
    (accept : Q2 → Bool) (testBoundary : List Q2) (rand : Nat → ℚ × ℚ) :
    (generateInteriorPointsPoisson boundaryPoints numPoints accept testBoundary rand =
      if ((poissonCandsOf testBoundary numPoints rand).filter accept).take numPoints = []
      then boundaryPoints
      else boundaryPoints ++
        ((poissonCandsOf testBoundary numPoints rand).filter accept).take numPoints) ∧
    (poissonCandsOf testBoundary numPoints rand).length =
      poissonGridSize numPoints * poissonGridSize numPoints := by
  refine ⟨?_, poissonCandsOf_length testBoundary numPoints rand⟩
  by_cases h0 : numPoints = 0
  · subst h0
    have hc : poissonCandsOf testBoundary 0 rand = [] := by
      unfold poissonCandsOf poissonCands
      simp [poissonGridSize, linspace]
    simp [generateInteriorPointsPoisson, hc, poissonLoop]
  · have hpos : 0 < numPoints := Nat.pos_of_ne_zero h0
    unfold generateInteriorPointsPoisson
    rw [poissonLoop_eq_filter_take accept numPoints
      (poissonCandsOf testBoundary numPoints rand) [] (by simpa using hpos)]
    simp only [List.nil_append, Nat.sub_zero]
    by_cases he :
        ((poissonCandsOf testBoundary numPoints rand).filter accept).take numPoints = []
    · simp [he]
    · simp only [he, if_false, List.isEmpty_eq_true]
      rw [List.take_take]
      simp [he]

theorem distSq_nonneg (p q : Q2) : 0 ≤ distSq p q := by
  unfold distSq
  positivity

theorem chordThreshold_mono (a b : Q2) (e1 e2 : ℚ) (h : e1 ≤ e2) :
    chordThreshold a b e1 ≤ chordThreshold a b e2 := by
  unfold chordThreshold
  split
  · exact h
  · exact mul_le_mul_of_nonneg_right h (distSq_nonneg a b)

theorem dpSeg_nil (eps2 : ℚ) (a b : Q2) : dpSeg eps2 a [] b = [a, b] := by
  rw [dpSeg]
  simp

theorem dpSeg_degenerate (eps2 : ℚ) (a : Q2) (mid : List Q2) (b : Q2)
    (hm : ¬ mid = []) (hk : ¬ (farthestAux a b mid).1 < mid.length) :
    dpSeg eps2 a mid b = [a, b] := by
  rw [dpSeg]
  rw [if_neg hm, dif_neg hk]

theorem dpSeg_split (eps2 : ℚ) (a : Q2) (mid : List Q2) (b : Q2)
    (hm : ¬ mid = []) (hk : (farthestAux a b mid).1 < mid.length)
    (hf : (farthestAux a b mid).2 > chordThreshold a b eps2) :
    dpSeg eps2 a mid b =
      dpSeg eps2 a (mid.take (farthestAux a b mid).1)
          (mid.getD (farthestAux a b mid).1 (0, 0)) ++
        (dpSeg eps2 (mid.getD (farthestAux a b mid).1 (0, 0))
          (mid.drop ((farthestAux a b mid).1 + 1)) b).drop 1 := by
  rw [dpSeg]
  rw [if_neg hm, dif_pos hk, if_pos hf]

theorem dpSeg_flat (eps2 : ℚ) (a : Q2) (mid : List Q2) (b : Q2)
    (hm : ¬ mid = []) (hk : (farthestAux a b mid).1 < mid.length)
    (hf : ¬ (farthestAux a b mid).2 > chordThreshold a b eps2) :
    dpSeg eps2 a mid b = [a, b] := by
  rw [dpSeg]
  rw [if_neg hm, dif_pos hk, if_neg hf]

theorem dpSeg_length_ge_aux (n : Nat) :
    ∀ (eps2 : ℚ) (a : Q2) (mid : List Q2) (b : Q2), mid.length ≤ n →
      2 ≤ (dpSeg eps2 a mid b).length := by
  induction n with
  | zero =>
    intro eps2 a mid b h
    have hm : mid = [] := List.length_eq_zero.mp (Nat.le_zero.mp h)
    subst hm
    rw [dpSeg_nil]
    simp
  | succ n ih =>
    intro eps2 a mid b h
    by_cases hm : mid = []
    · subst hm
      rw [dpSeg_nil]
      simp
    · by_cases hk : (farthestAux a b mid).1 < mid.length
      · by_cases hf : (farthestAux a b mid).2 > chordThreshold a b eps2
        · rw [dpSeg_split eps2 a mid b hm hk hf]
          have hmne : 0 < mid.length := List.length_pos.mpr hm
          have h1 := ih eps2 a (mid.take (farthestAux a b mid).1)
            (mid.getD (farthestAux a b mid).1 (0, 0))
            (by simp only [List.length_take]; omega)
          have h2 := ih eps2 (mid.getD (farthestAux a b mid).1 (0, 0))
            (mid.drop ((farthestAux a b mid).1 + 1)) b
            (by simp only [List.length_drop]; omega)
          simp only [List.length_append, List.length_drop]
          omega
        · rw [dpSeg_flat eps2 a mid b hm hk hf]
          simp
      · rw [dpSeg_degenerate eps2 a mid b hm hk]
        simp

theorem dpSeg_length_ge (eps2 : ℚ) (a : Q2) (mid : List Q2) (b : Q2) :
    2 ≤ (dpSeg eps2 a mid b).length :=
  dpSeg_length_ge_aux mid.length eps2 a mid b le_rfl

theorem dpSeg_mono_aux (n : Nat) :
    ∀ (e1 e2 : ℚ) (a : Q2) (mid : List Q2) (b : Q2), mid.length ≤ n → e1 ≤ e2 →
      (dpSeg e2 a mid b).length ≤ (dpSeg e1 a mid b).length := by
  induction n with
  | zero =>
    intro e1 e2 a mid b h _
    have hm : mid = [] := List.length_eq_zero.mp (Nat.le_zero.mp h)
    subst hm
    rw [dpSeg_nil, dpSeg_nil]
  | succ n ih =>
    intro e1 e2 a mid b h he
    by_cases hm : mid = []
    · subst hm
      rw [dpSeg_nil, dpSeg_nil]
    · by_cases hk : (farthestAux a b mid).1 < mid.length
      · by_cases hf2 : (farthestAux a b mid).2 > chordThreshold a b e2
        · have hf1 : (farthestAux a b mid).2 > chordThreshold a b e1 :=
            lt_of_le_of_lt (chordThreshold_mono a b e1 e2 he) hf2
          rw [dpSeg_split e2 a mid b hm hk hf2, dpSeg_split e1 a mid b hm hk hf1]
          have hmne : 0 < mid.length := List.length_pos.mpr hm
          have hA := ih e1 e2 a (mid.take (farthestAux a b mid).1)
            (mid.getD (farthestAux a b mid).1 (0, 0))
            (by simp only [List.length_take]; omega) he
          have hB := ih e1 e2 (mid.getD (farthestAux a b mid).1 (0, 0))
            (mid.drop ((farthestAux a b mid).1 + 1)) b
            (by simp only [List.length_drop]; omega) he
          simp only [List.length_append, List.length_drop]
          omega
        · rw [dpSeg_flat e2 a mid b hm hk hf2]
          have := dpSeg_length_ge e1 a mid b
          simpa using this
      · rw [dpSeg_degenerate e2 a mid b hm hk, dpSeg_degenerate e1 a mid b hm hk]

theorem dpSeg_mono (e1 e2 : ℚ) (a : Q2) (mid : List Q2) (b : Q2) (h : e1 ≤ e2) :
    (dpSeg e2 a mid b).length ≤ (dpSeg e1 a mid b).length :=
  dpSeg_mono_aux mid.length e1 e2 a mid b le_rfl h

theorem dpSimplify_mono (e1 e2 : ℚ) (h : e1 ≤ e2) (ps : List Q2) :
    (dpSimplify e2 ps).length ≤ (dpSimplify e1 ps).length := by
  cases ps with
  | nil => simp [dpSimplify]
  | cons a ps2 =>
    cases ps2 with
    | nil => simp [dpSimplify]
    | cons b rest =>
      simp only [dpSimplify]
      exact dpSeg_mono e1 e2 a ((b :: rest).dropLast)
        ((b :: rest).getLast (List.cons_ne_nil b rest)) h

/-- C8: simplification is monotone in the tolerance — for a polygon with
at least 3 points and tolerances `0 ≤ eps1 < eps2`, the larger tolerance
yields at most as many points as the smaller one. -/
theorem simplify_monotone (c : ContourData) (eps1 eps2 : ℚ)
    (hpts : 3 ≤ c.points.length) (h0 : 0 ≤ eps1) (h12 : eps1 < eps2) :
    (c.simplify eps2).num_points ≤ (c.simplify eps1).num_points := by
  have hlt : ¬ c.points.length < 3 := by omega
  have hsq : eps1 * eps1 ≤ eps2 * eps2 :=
    mul_self_le_mul_self h0 (le_of_lt h12)
  simp only [ContourData.simplify, hlt, if_false]
  exact dpSimplify_mono (eps1 * eps1) (eps2 * eps2) hsq c.points

/-- A 4-vertex axis-aligned square contour used as concrete test data. -/
def contourSquare : ContourData :=
  ⟨[(0, 0), (10, 0), (10, 10), (0, 10)], (12, 12), 4, true⟩

/-- C8 witness: the monotonicity instance on the concrete square with
tolerances 0 and 1. -/
theorem simplify_monotone_witness :
    3 ≤ contourSquare.points.length ∧
    (contourSquare.simplify 1).num_points ≤ (contourSquare.simplify 0).num_points :=
  ⟨by decide, simplify_monotone contourSquare 0 1 (by decide) (le_refl 0) (by norm_num)⟩

/-- C9: `simplify` on a polygon with fewer than 3 points returns the
input unchanged and does not fail. -/
theorem simplify_degenerate_noop (c : ContourData) (epsilon : ℚ)
    (h : c.points.length < 3) : c.simplify epsilon = c := by
  simp [ContourData.simplify, h]

/-- A degenerate 2-point contour used as concrete test data. -/
def contourDegenerate : ContourData := ⟨[(0, 0), (1, 1)], (2, 2), 2, true⟩

/-- C9 witness: simplifying the concrete 2-point contour at tolerance 2 is
the identity. -/
theorem simplify_degenerate_noop_witness :
    contourDegenerate.points.length < 3 ∧
    contourDegenerate.simplify 2 = contourDegenerate :=
  ⟨by decide, simplify_degenerate_noop contourDegenerate 2 (by decide)⟩

end MeshedLogo
